import Mathlib

/-!
Verification development for the `ex_tholos-pq` NIF module
(`src/native/ex_tholos_pq_nif/src/lib.rs`): a multi-recipient,
sender-authenticated post-quantum encryption wrapper.

The NIF layer (key registries, lookups, error wrapping, lock lifetimes) is
embedded from `lib.rs`.  The `tholos_pq` crate that the NIF calls
(`gen_recipient_keypair`, `gen_sender_keypair`, `sender_pub`, `encrypt`,
`decrypt`) is not part of the repository sources, so its seal/open protocol
is modelled from the specification (spec.md, sections 4.2, 4.3 and 6), and
the KEM / signature / AEAD primitives are abstracted as a `Primitives`
record whose correctness contracts (spec section 6) appear as hypotheses.
-/

/-- Recipient public identity. The NIF source accesses `priv_key.sk_kyber`
and `sender_pub.sid` / `sender_pub.pk_dilithium`, fixing these field names;
the KEM public key of a recipient is named by analogy. Keys of the external
primitives are modelled as `Nat`. -/
structure RecipientPub where
  kid : String
  pk_kyber : Nat
deriving DecidableEq

/-- Recipient private KEM key (`lib.rs` line 139 uses `priv_key.sk_kyber`). -/
structure RecipientPriv where
  sk_kyber : Nat
deriving DecidableEq

/-- Sender public identity (`lib.rs` line 135 uses `sender_pub.sid` and
`sender_pub.pk_dilithium`). -/
structure SenderPub where
  sid : String
  pk_dilithium : Nat
deriving DecidableEq

/-- Full sender keypair stored in the sender registry. -/
structure SenderKeypair where
  sid : String
  pk_dilithium : Nat
  sk_dilithium : Nat
deriving DecidableEq

/-- One encapsulated-key entry of an envelope (spec section 6). -/
structure RecipientEntry where
  recipient_id : String
  encapsulated_key : Nat
deriving DecidableEq

/-- The sealed-message envelope, wire layout of spec section 6. -/
structure Envelope where
  sender_id : String
  recipients : List RecipientEntry
  nonce : Nat
  ciphertext : List Nat
  tag : Nat
  signature : List Nat
deriving DecidableEq

/-- Modelled from the spec: serde_cbor is an external collaborator
(spec section 1 puts serialization-library mechanics out of scope), so
binaries handled by the NIF are modelled as a tagged sum: an injective
encoding of each serializable value, with arbitrary other byte strings
(`raw`) on which deserialization fails. -/
inductive Bin where
  | recipientPub (p : RecipientPub)
  | senderPub (p : SenderPub)
  | envelope (e : Envelope)
  | raw (bytes : List Nat)
deriving DecidableEq

/-- Modelled from the spec: a serde_cbor deserialization failure
(its payload is out of scope, so a single failure value is used). -/
inductive CborError where
  | invalidEncoding
deriving DecidableEq

/-- Debug rendering of a CBOR error, standing in for Rust's
`format!("{:?}", e)` on a `serde_cbor::Error`. -/
def CborError.debugStr : CborError → String
  | .invalidEncoding => "InvalidEncoding"

/-- Modelled from the spec: the closed error taxonomy of the seal/open
protocol (spec section 7), as produced by `tholos_pq::encrypt` /
`tholos_pq::decrypt`, which are not part of the repository sources. -/
inductive TholosError where
  | recipientNotAddressed
  | untrustedSender
  | signatureInvalid
  | encapsulationFailed (rid : String)
  | decapsulationFailed
  | payloadAuthenticationFailed
  | serializationFailed
deriving DecidableEq

/-- Debug rendering of a protocol error, standing in for Rust's
`format!("{:?}", e)` in the NIF's error wrapping. -/
def TholosError.debugStr : TholosError → String
  | .recipientNotAddressed => "RecipientNotAddressed"
  | .untrustedSender => "UntrustedSender"
  | .signatureInvalid => "SignatureInvalid"
  | .encapsulationFailed rid => "EncapsulationFailed(" ++ rid ++ ")"
  | .decapsulationFailed => "DecapsulationFailed"
  | .payloadAuthenticationFailed => "PayloadAuthenticationFailed"
  | .serializationFailed => "SerializationFailed"

/-- A rustler NIF error as raised by `lib.rs`: either `Error::Term` holding
a formatted string, or `Error::Atom`. -/
inductive NifError where
  | term (msg : String)
  | atom (a : String)
deriving DecidableEq

/-- Modelled from the spec: the external post-quantum Primitive Adapter
(spec sections 2 and 6) — KEM, signature and AEAD primitives, consumed as a
black box.  Randomness (encapsulation randomness, nonces, key generation
seeds) is passed explicitly as `Nat` arguments.  Following spec section 4.2
step 4 and the invariant of section 3 ("every recipient entry decapsulates
to the same ContentKey"), encapsulation takes the content key to
encapsulate and decapsulation recovers it. -/
structure Primitives where
  kemKeygen : Nat → Nat × Nat
  kemEncap : Nat → Nat → Nat → Option Nat
  kemDecap : Nat → Nat → Option Nat
  sigKeygen : Nat → Nat × Nat
  sign : Nat → List Nat → List Nat
  verify : Nat → List Nat → List Nat → Bool
  aeadEncrypt : Nat → Nat → List Nat → List Nat × Nat
  aeadDecrypt : Nat → Nat → List Nat → Nat → Option (List Nat)

/-- Contract of the KEM primitive (spec section 6): encapsulating a secret
under an honestly generated public key succeeds, and decapsulating with the
matching private key recovers the secret. -/
def KemCorrect (prims : Primitives) : Prop :=
  ∀ seed rand s, ∃ ek, prims.kemEncap rand (prims.kemKeygen seed).1 s = some ek ∧
    prims.kemDecap (prims.kemKeygen seed).2 ek = some s

/-- Contract of the signature primitive (spec section 6): a signature made
with an honestly generated private key verifies under the matching public
key. -/
def SigCorrect (prims : Primitives) : Prop :=
  ∀ seed d, prims.verify (prims.sigKeygen seed).1 d (prims.sign (prims.sigKeygen seed).2 d) = true

/-- Contract of the AEAD primitive (spec section 6): decryption inverts
encryption under the same key and nonce. -/
def AeadCorrect (prims : Primitives) : Prop :=
  ∀ k n pt, prims.aeadDecrypt k n (prims.aeadEncrypt k n pt).1 (prims.aeadEncrypt k n pt).2 = some pt

/-- Fresh per-message randomness consumed by the seal protocol: the
ephemeral ContentKey, the AEAD nonce, and the base encapsulation
randomness (each recipient entry uses an independent value derived from
it). -/
structure Entropy where
  contentKey : Nat
  nonce : Nat
  encapRand : Nat
deriving DecidableEq

namespace TholosPq

/-- Modelled from the spec: `tholos_pq::gen_recipient_keypair` (called at
`lib.rs` line 32 but not itself in the sources) — KEM key generation
producing the public identity and the private key (spec section 4.1). -/
def gen_recipient_keypair (prims : Primitives) (kid : String) (seed : Nat) :
    RecipientPub × RecipientPriv :=
  let kp := prims.kemKeygen seed
  ({ kid := kid, pk_kyber := kp.1 }, { sk_kyber := kp.2 })

/-- Modelled from the spec: `tholos_pq::gen_sender_keypair` (called at
`lib.rs` line 57) — signature key generation (spec section 4.1). -/
def gen_sender_keypair (prims : Primitives) (sid : String) (seed : Nat) :
    SenderKeypair :=
  let kp := prims.sigKeygen seed
  { sid := sid, pk_dilithium := kp.1, sk_dilithium := kp.2 }

/-- Modelled from the spec: `tholos_pq::sender_pub` (called at `lib.rs`
line 58) — the exportable public projection of a sender keypair (spec
section 3). -/
def sender_pub (s : SenderKeypair) : SenderPub :=
  { sid := s.sid, pk_dilithium := s.pk_dilithium }

/-- Injective-style encoding of a string used inside the canonical digest. -/
def encStr (s : String) : List Nat :=
  s.length :: s.data.map Char.toNat

/-- Modelled from the spec: the canonical digest over sender id, ordered
recipient ids, nonce, ciphertext, and tag (spec section 4.2 step 5 and
section 4.3 step 3). -/
def canonicalDigest (sid : String) (rids : List String) (nonce : Nat)
    (ct : List Nat) (tag : Nat) : List Nat :=
  encStr sid ++ rids.length :: (rids.map encStr).flatten ++ nonce :: ct.length :: ct ++ [tag]

/-- The digest an envelope's signature is checked against (spec section 4.3
step 3: recomputed from the envelope's sender id, full recipient-id list,
nonce, ciphertext, and tag). -/
def envelopeDigest (env : Envelope) : List Nat :=
  canonicalDigest env.sender_id (env.recipients.map (·.recipient_id)) env.nonce
    env.ciphertext env.tag

/-- Modelled from the spec: spec section 4.2 step 4 — encapsulate the
ContentKey for each recipient independently, fail-fast with
`EncapsulationFailed` carrying the recipient id on the first failure. -/
def encapAll (prims : Primitives) : List RecipientPub → Nat → Nat →
    Except TholosError (List RecipientEntry)
  | [], _, _ => .ok []
  | p :: rest, ck, rand =>
    match prims.kemEncap rand p.pk_kyber ck with
    | none => .error (.encapsulationFailed p.kid)
    | some ek =>
      match encapAll prims rest ck (rand + 1) with
      | .error e => .error e
      | .ok entries => .ok ({ recipient_id := p.kid, encapsulated_key := ek } :: entries)

/-- Modelled from the spec: `tholos_pq::encrypt` (called at `lib.rs`
line 101) — the Seal protocol of spec section 4.2: fresh ContentKey,
AEAD-encrypt the plaintext, encapsulate the ContentKey per recipient
(fail-fast), sign the canonical digest, assemble and serialize the
envelope. -/
def encrypt (prims : Primitives) (ent : Entropy) (msg : List Nat)
    (sender : SenderKeypair) (recipients : List RecipientPub) :
    Except TholosError Bin :=
  let ck := ent.contentKey
  let ct := (prims.aeadEncrypt ck ent.nonce msg).1
  let tg := (prims.aeadEncrypt ck ent.nonce msg).2
  match encapAll prims recipients ck ent.encapRand with
  | .error e => .error e
  | .ok entries =>
    let digest := canonicalDigest sender.sid (entries.map (·.recipient_id)) ent.nonce ct tg
    .ok (Bin.envelope
      { sender_id := sender.sid, recipients := entries, nonce := ent.nonce,
        ciphertext := ct, tag := tg, signature := prims.sign sender.sk_dilithium digest })

/-- Deserialization of a wire envelope inside the Open protocol. -/
def decodeEnvelope : Bin → Except TholosError Envelope
  | .envelope e => .ok e
  | _ => .error .serializationFailed

/-- Spec section 4.3 step 2: locate the encapsulated-key entry whose
`recipient_id` matches the opening recipient. -/
def locateEntry (kid : String) : List RecipientEntry → Option RecipientEntry
  | [] => none
  | e :: rest => if e.recipient_id = kid then some e else locateEntry kid rest

/-- Spec section 4.3 step 4: find the allow-list entry whose id matches the
envelope's sender id. -/
def findAllowed (sid : String) : List (String × Nat) → Option (String × Nat)
  | [] => none
  | p :: rest => if p.1 = sid then some p else findAllowed sid rest

/-- The steps an Open run performs, in order, mirroring the state machine
of spec section 4.3 / 4.4. -/
inductive OpenStep where
  | decodeWire
  | locateEntry
  | computeDigest
  | lookupAllowed
  | verifySignature
  | decapsulate
  | aeadDecrypt
deriving DecidableEq

/-- Modelled from the spec: `tholos_pq::decrypt` (called at `lib.rs`
line 139) — the Open protocol of spec section 4.3, steps 2 through 8
(step 1, the recipient-registry lookup, lives in the NIF).  Returns the
result together with the ordered list of steps actually performed, so that
the verify-before-decapsulate/decrypt ordering is part of the model. -/
def openRun (prims : Primitives) (wire : Bin) (kid : String) (sk_kyber : Nat)
    (allowed : List (String × Nat)) :
    Except TholosError (List Nat) × List OpenStep :=
  match decodeEnvelope wire with
  | .error e => (.error e, [.decodeWire])
  | .ok env =>
    match locateEntry kid env.recipients with
    | none => (.error .recipientNotAddressed, [.decodeWire, .locateEntry])
    | some entry =>
      let digest := envelopeDigest env
      match findAllowed env.sender_id allowed with
      | none => (.error .untrustedSender,
          [.decodeWire, .locateEntry, .computeDigest, .lookupAllowed])
      | some p =>
        if prims.verify p.2 digest env.signature then
          match prims.kemDecap sk_kyber entry.encapsulated_key with
          | none => (.error .decapsulationFailed,
              [.decodeWire, .locateEntry, .computeDigest, .lookupAllowed,
               .verifySignature, .decapsulate])
          | some ck =>
            match prims.aeadDecrypt ck env.nonce env.ciphertext env.tag with
            | none => (.error .payloadAuthenticationFailed,
                [.decodeWire, .locateEntry, .computeDigest, .lookupAllowed,
                 .verifySignature, .decapsulate, .aeadDecrypt])
            | some pt => (.ok pt,
                [.decodeWire, .locateEntry, .computeDigest, .lookupAllowed,
                 .verifySignature, .decapsulate, .aeadDecrypt])
        else
          (.error .signatureInvalid,
            [.decodeWire, .locateEntry, .computeDigest, .lookupAllowed, .verifySignature])

/-- Modelled from the spec: the result of `tholos_pq::decrypt`
(projection of `openRun` on the returned value). -/
def decrypt (prims : Primitives) (wire : Bin) (kid : String) (sk_kyber : Nat)
    (allowed : List (String × Nat)) : Except TholosError (List Nat) :=
  (openRun prims wire kid sk_kyber allowed).1

end TholosPq

/-- Association-list lookup modelling `HashMap::get` on the registries. -/
def lookupA {α : Type} : List (String × α) → String → Option α
  | [], _ => none
  | (k, v) :: rest, key => if k = key then some v else lookupA rest key

/-- Association-list insertion modelling `HashMap::insert`: an existing
binding for the key is replaced (silent overwrite), otherwise the binding
is appended. -/
def insertA {α : Type} : List (String × α) → String → α → List (String × α)
  | [], key, v => [(key, v)]
  | (k, w) :: rest, key, v =>
    if k = key then (key, v) :: rest else (k, w) :: insertA rest key v

/-- The NIF module's global state (`lib.rs` lines 15-20): the recipient-key
registry mapping identifiers to `(RecipientPub, RecipientPriv)` pairs, and
the sender-key registry mapping identifiers to `SenderKeypair`s. -/
structure NifState where
  recipientKeys : List (String × RecipientPub × RecipientPriv)
  senderKeys : List (String × SenderKeypair)
deriving DecidableEq

/-- Registry-lock and cryptographic events of a NIF call, used to express
lock lifetimes: a Rust `MutexGuard` bound by `let` is dropped at the end of
its scope, i.e. at every return point of the function, so the unlock event
is always the last event of a run. -/
inductive NifStep where
  | lockSender
  | unlockSender
  | lockRecipient
  | unlockRecipient
  | tholosEncrypt
  | tholosDecrypt
deriving DecidableEq

deriving instance DecidableEq for Except

/-- Result, post-state and event trace of a NIF encrypt/decrypt call. -/
structure NifOutcome (α : Type) where
  result : Except NifError α
  state : NifState
  events : List NifStep
deriving DecidableEq

namespace Nif

/-- `gen_recipient_keypair` (`lib.rs` lines 27-48): generate a keypair,
CBOR-serialize the public key, store the full keypair in the recipient
registry (`HashMap::insert`, overwriting any existing binding), and return
`(kid, public_key_cbor)` under the ok atom.  Serialization and binary
allocation are modelled as total. -/
def gen_recipient_keypair (prims : Primitives) (st : NifState) (kid : String)
    (seed : Nat) : Except NifError (String × Bin) × NifState :=
  let kp := TholosPq.gen_recipient_keypair prims kid seed
  let pub_bin := Bin.recipientPub kp.1
  (.ok (kid, pub_bin), { st with recipientKeys := insertA st.recipientKeys kid kp })

/-- `gen_sender_keypair` (`lib.rs` lines 52-71): generate a sender keypair,
CBOR-serialize its public projection, store the full keypair in the sender
registry (`HashMap::insert`, overwriting any existing binding), and return
`(sid, public_key_cbor)` under the ok atom. -/
def gen_sender_keypair (prims : Primitives) (st : NifState) (sid : String)
    (seed : Nat) : Except NifError (String × Bin) × NifState :=
  let sender := TholosPq.gen_sender_keypair prims sid seed
  let pub_bin := Bin.senderPub (TholosPq.sender_pub sender)
  (.ok (sid, pub_bin), { st with senderKeys := insertA st.senderKeys sid sender })

/-- Deserialization of one recipient public-key binary
(`serde_cbor::from_slice` at `lib.rs` line 91). -/
def cborDecodeRecipientPub : Bin → Except CborError RecipientPub
  | .recipientPub p => .ok p
  | _ => .error .invalidEncoding

/-- Deserialization of one allowed-sender public-key binary
(`serde_cbor::from_slice` at `lib.rs` line 128). -/
def cborDecodeSenderPub : Bin → Except CborError SenderPub
  | .senderPub p => .ok p
  | _ => .error .invalidEncoding

/-- `lib.rs` lines 89-92: `recipient_pub_keys.iter().map(from_slice)
.collect::<Result<Vec<_>, _>>()` — deserialize every recipient public key,
stopping at the first failure. -/
def collectRecipients : List Bin → Except CborError (List RecipientPub)
  | [] => .ok []
  | b :: rest =>
    match cborDecodeRecipientPub b with
    | .error e => .error e
    | .ok p =>
      match collectRecipients rest with
      | .error e => .error e
      | .ok ps => .ok (p :: ps)

/-- `lib.rs` lines 126-136: the for-loop deserializing each allowed-sender
public key with `?` (stopping at the first failure) and pushing
`(sender_pub.sid, sender_pub.pk_dilithium)` pairs. -/
def collectAllowed : List Bin → Except CborError (List (String × Nat))
  | [] => .ok []
  | b :: rest =>
    match cborDecodeSenderPub b with
    | .error e => .error e
    | .ok p =>
      match collectAllowed rest with
      | .error e => .error e
      | .ok ps => .ok ((p.sid, p.pk_dilithium) :: ps)

/-- `encrypt` (`lib.rs` lines 76-108): lock the sender registry (line 83),
look up the sender (fail with the `Sender {sender_id} not found` term if
absent), deserialize the recipient public keys (fail with the
`Failed to deserialize recipients` term on the first bad binary), call
`tholos_pq::encrypt` (wrapping its error as the `Encryption failed` term),
and return the wire bytes.  The registry is never mutated; the mutex guard
`sender_keys` is dropped only when the function returns, so the unlock
event is last on every path and the crypto call happens under the lock. -/
def encrypt (prims : Primitives) (ent : Entropy) (st : NifState)
    (message : List Nat) (sender_id : String) (recipient_pub_keys : List Bin) :
    NifOutcome Bin :=
  match lookupA st.senderKeys sender_id with
  | none =>
    { result := .error (.term ("Sender " ++ sender_id ++ " not found")), state := st,
      events := [.lockSender, .unlockSender] }
  | some sender =>
    match collectRecipients recipient_pub_keys with
    | .error e =>
      { result := .error (.term ("Failed to deserialize recipients: " ++ e.debugStr)),
        state := st, events := [.lockSender, .unlockSender] }
    | .ok recipients =>
      match TholosPq.encrypt prims ent message sender recipients with
      | .error e =>
        { result := .error (.term ("Encryption failed: " ++ e.debugStr)), state := st,
          events := [.lockSender, .tholosEncrypt, .unlockSender] }
      | .ok wire =>
        { result := .ok wire, state := st,
          events := [.lockSender, .tholosEncrypt, .unlockSender] }

/-- `decrypt` (`lib.rs` lines 112-147): lock the recipient registry
(line 120), look up the recipient's keypair (fail with the
`Recipient {kid} not found` term if absent), deserialize the allowed-sender
public keys into `(sid, pk_dilithium)` pairs (fail with the
`Failed to deserialize sender pub key` term on the first bad binary), call
`tholos_pq::decrypt` with the recipient's `sk_kyber` (wrapping its error as
the `Decryption failed` term), and return the plaintext.  The registry is
never mutated; the mutex guard `recipient_keys` is dropped only when the
function returns, so the unlock event is last on every path and the crypto
call happens under the lock. -/
def decrypt (prims : Primitives) (st : NifState) (wire : Bin) (kid : String)
    (allowed_sender_pub_keys : List Bin) : NifOutcome (List Nat) :=
  match lookupA st.recipientKeys kid with
  | none =>
    { result := .error (.term ("Recipient " ++ kid ++ " not found")), state := st,
      events := [.lockRecipient, .unlockRecipient] }
  | some kp =>
    match collectAllowed allowed_sender_pub_keys with
    | .error e =>
      { result := .error (.term ("Failed to deserialize sender pub key: " ++ e.debugStr)),
        state := st, events := [.lockRecipient, .unlockRecipient] }
    | .ok allowed =>
      match TholosPq.decrypt prims wire kid kp.2.sk_kyber allowed with
      | .error e =>
        { result := .error (.term ("Decryption failed: " ++ e.debugStr)), state := st,
          events := [.lockRecipient, .tholosDecrypt, .unlockRecipient] }
      | .ok pt =>
        { result := .ok pt, state := st,
          events := [.lockRecipient, .tholosDecrypt, .unlockRecipient] }

end Nif

/-- A concrete, executable instantiation of the Primitive Adapter used to
evaluate the protocol on closed inputs (key pairs are `(seed, seed)`, the
encapsulated key is the pair-encoding of public key and secret, signatures
prepend the signing key to the digest, and the AEAD shifts bytes by the
key-nonce sum and tags with the key plus the length). -/
def toyPrims : Primitives where
  kemKeygen := fun seed => (seed, seed)
  kemEncap := fun _rand pk s => some (Nat.pair pk s)
  kemDecap := fun sk ek => if (Nat.unpair ek).1 = sk then some (Nat.unpair ek).2 else none
  sigKeygen := fun seed => (seed, seed)
  sign := fun sk d => sk :: d
  verify := fun pk d sg => decide (sg = pk :: d)
  aeadEncrypt := fun k n pt => (pt.map (fun x => x + (k + n)), k + pt.length)
  aeadDecrypt := fun k n ct tag =>
    if tag = k + ct.length then some (ct.map (fun x => x - (k + n))) else none

lemma toyPrims_kem : KemCorrect toyPrims := by
  intro seed rand s
  exact ⟨Nat.pair seed s, rfl, by simp [toyPrims, Nat.unpair_pair]⟩

lemma toyPrims_sig : SigCorrect toyPrims := by
  intro seed d
  simp [toyPrims]

lemma toyPrims_aead : AeadCorrect toyPrims := by
  intro k n pt
  simp [toyPrims, List.map_map, Function.comp_def]

lemma lookupA_insertA_self {α : Type} (l : List (String × α)) (k : String) (v : α) :
    lookupA (insertA l k v) k = some v := by
  induction l with
  | nil => simp [insertA, lookupA]
  | cons p rest ih =>
    by_cases h : p.1 = k
    · simp [insertA, h, lookupA]
    · simp [insertA, h, lookupA, ih]

lemma collectRecipients_map_encode (ps : List RecipientPub) :
    Nif.collectRecipients (ps.map Bin.recipientPub) = .ok ps := by
  induction ps with
  | nil => rfl
  | cons p rest ih => simp [Nif.collectRecipients, Nif.cborDecodeRecipientPub, ih]

lemma collectAllowed_single (p : SenderPub) :
    Nif.collectAllowed [Bin.senderPub p] = .ok [(p.sid, p.pk_dilithium)] := rfl

lemma collectRecipients_error_of_bad (keys : List Bin)
    (hbad : ∃ b ∈ keys, Nif.cborDecodeRecipientPub b = .error .invalidEncoding) :
    Nif.collectRecipients keys = .error .invalidEncoding := by
  induction keys with
  | nil => rcases hbad with ⟨b, hb, -⟩; cases hb
  | cons b rest ih =>
    rcases hd : Nif.cborDecodeRecipientPub b with e | p
    · cases e
      simp [Nif.collectRecipients, hd]
    · rcases hbad with ⟨b', hb', he'⟩
      rcases List.mem_cons.mp hb' with rfl | hmem
      · rw [hd] at he'; cases he'
      · have := ih ⟨b', hmem, he'⟩
        simp [Nif.collectRecipients, hd, this]

lemma encapAll_of_keygen (prims : Primitives) (hkem : KemCorrect prims)
    (ck : Nat) (keyseed : String → Nat) :
    ∀ (ids : List String) (rand : Nat),
    ∃ entries,
      TholosPq.encapAll prims
        (ids.map fun i => (TholosPq.gen_recipient_keypair prims i (keyseed i)).1) ck rand =
        .ok entries ∧
      entries.map (·.recipient_id) = ids ∧
      ∀ e ∈ entries,
        prims.kemDecap (prims.kemKeygen (keyseed e.recipient_id)).2 e.encapsulated_key =
          some ck := by
  intro ids
  induction ids with
  | nil => exact fun _ => ⟨[], rfl, rfl, by simp⟩
  | cons i rest ih =>
    intro rand
    obtain ⟨ek, hek, hdec⟩ := hkem (keyseed i) rand ck
    obtain ⟨entries, hene, hmap, hdecs⟩ := ih (rand + 1)
    refine ⟨{ recipient_id := i, encapsulated_key := ek } :: entries, ?_, by simp [hmap], ?_⟩
    · have hene' : TholosPq.encapAll prims
          (rest.map fun i => { kid := i, pk_kyber := (prims.kemKeygen (keyseed i)).1 }) ck
          (rand + 1) = .ok entries := by
        simpa [TholosPq.gen_recipient_keypair] using hene
      simp only [List.map_cons, TholosPq.encapAll, TholosPq.gen_recipient_keypair, hek, hene']
    · intro e he
      rcases List.mem_cons.mp he with rfl | hmem
      · exact hdec
      · exact hdecs e hmem

lemma locateEntry_eq_some (kid : String) (l : List RecipientEntry)
    (h : kid ∈ l.map (·.recipient_id)) :
    ∃ e, TholosPq.locateEntry kid l = some e ∧ e.recipient_id = kid ∧ e ∈ l := by
  induction l with
  | nil => simp at h
  | cons a rest ih =>
    by_cases ha : a.recipient_id = kid
    · exact ⟨a, by simp [TholosPq.locateEntry, ha], ha, List.mem_cons_self a rest⟩
    · have hmem : kid ∈ rest.map (·.recipient_id) := by
        rcases List.mem_map.mp h with ⟨e, he, heq⟩
        rcases List.mem_cons.mp he with rfl | hmem2
        · exact absurd heq ha
        · exact List.mem_map.mpr ⟨e, hmem2, heq⟩
      obtain ⟨e, h1, h2, h3⟩ := ih hmem
      exact ⟨e, by simp [TholosPq.locateEntry, ha, h1], h2, List.mem_cons_of_mem a h3⟩

/-- Empty registries: the NIF state at module load. -/
def stEmpty : NifState := { recipientKeys := [], senderKeys := [] }

/-- Concrete per-message randomness used by closed evaluations. -/
def exEnt : Entropy := { contentKey := 9, nonce := 4, encapRand := 2 }

/-- A concrete recipient keypair already stored in the registry. -/
def oldRecipPair : RecipientPub × RecipientPriv :=
  ({ kid := "alice", pk_kyber := 111 }, { sk_kyber := 222 })

/-- A concrete sender keypair already stored in the registry. -/
def oldSenderPair : SenderKeypair := { sid := "bob", pk_dilithium := 333, sk_dilithium := 444 }

/-- A state in which both `"alice"` and `"bob"` are already registered. -/
def stDup : NifState :=
  { recipientKeys := [("alice", oldRecipPair)], senderKeys := [("bob", oldSenderPair)] }

/-- C3 counterexample: with `"alice"` (resp. `"bob"`) already present in the
corresponding registry, `gen_recipient_keypair` (resp. `gen_sender_keypair`)
does not fail with `DuplicateIdentifier` — it succeeds — and the previously
stored keypair is replaced, not left unchanged (`lib.rs` lines 39-42 and 65
call `HashMap::insert`, which silently overwrites). -/
theorem c3_counterexample :
    lookupA stDup.recipientKeys "alice" = some oldRecipPair ∧
    (Nif.gen_recipient_keypair toyPrims stDup "alice" 5).1 =
      .ok ("alice", Bin.recipientPub { kid := "alice", pk_kyber := 5 }) ∧
    lookupA (Nif.gen_recipient_keypair toyPrims stDup "alice" 5).2.recipientKeys "alice" ≠
      some oldRecipPair ∧
    lookupA stDup.senderKeys "bob" = some oldSenderPair ∧
    (Nif.gen_sender_keypair toyPrims stDup "bob" 6).1 =
      .ok ("bob", Bin.senderPub { sid := "bob", pk_dilithium := 6 }) ∧
    lookupA (Nif.gen_sender_keypair toyPrims stDup "bob" 6).2.senderKeys "bob" ≠
      some oldSenderPair := by
  decide

/-- C3 (amended): for every identifier already present in the corresponding
registry, `gen_recipient_keypair` / `gen_sender_keypair` under that id
succeeds (no `DuplicateIdentifier` is ever raised) and silently replaces
the previously stored keypair with the freshly generated one. -/
theorem c3_duplicate_id_silently_overwrites (prims : Primitives) (st st2 : NifState)
    (kid sid : String) (seed seed2 : Nat) (kp : RecipientPub × RecipientPriv)
    (skp : SenderKeypair)
    (h : lookupA st.recipientKeys kid = some kp)
    (h2 : lookupA st2.senderKeys sid = some skp) :
    ((Nif.gen_recipient_keypair prims st kid seed).1 =
        .ok (kid, Bin.recipientPub (TholosPq.gen_recipient_keypair prims kid seed).1) ∧
      lookupA (Nif.gen_recipient_keypair prims st kid seed).2.recipientKeys kid =
        some (TholosPq.gen_recipient_keypair prims kid seed)) ∧
    ((Nif.gen_sender_keypair prims st2 sid seed2).1 =
        .ok (sid, Bin.senderPub (TholosPq.sender_pub (TholosPq.gen_sender_keypair prims sid seed2))) ∧
      lookupA (Nif.gen_sender_keypair prims st2 sid seed2).2.senderKeys sid =
        some (TholosPq.gen_sender_keypair prims sid seed2)) :=
  ⟨⟨rfl, lookupA_insertA_self _ _ _⟩, ⟨rfl, lookupA_insertA_self _ _ _⟩⟩

/-- Witness for the amended C3 at a concrete occupied registry. -/
theorem c3_duplicate_id_silently_overwrites_witness :
    lookupA stDup.recipientKeys "alice" = some oldRecipPair ∧
    lookupA stDup.senderKeys "bob" = some oldSenderPair ∧
    lookupA (Nif.gen_recipient_keypair toyPrims stDup "alice" 5).2.recipientKeys "alice" =
      some (TholosPq.gen_recipient_keypair toyPrims "alice" 5) ∧
    lookupA (Nif.gen_sender_keypair toyPrims stDup "bob" 6).2.senderKeys "bob" =
      some (TholosPq.gen_sender_keypair toyPrims "bob" 6) :=
  ⟨by decide, by decide,
    (c3_duplicate_id_silently_overwrites toyPrims stDup stDup "alice" "bob" 5 6
      oldRecipPair oldSenderPair (by decide) (by decide)).1.2,
    (c3_duplicate_id_silently_overwrites toyPrims stDup stDup "alice" "bob" 5 6
      oldRecipPair oldSenderPair (by decide) (by decide)).2.2⟩

/-- C4: sealing with a sender id absent from the sender registry fails with
the code's unknown-sender error (the `Sender {id} not found` term raised at
`lib.rs` lines 84-86 — the spec's `UnknownSender`), and opening with a
recipient id absent from the recipient registry fails with the
`Recipient {id} not found` term (`lib.rs` lines 121-123 — the spec's
`UnknownRecipient`); being errors, no envelope or plaintext is produced. -/
theorem c4_unknown_sender_recipient_rejected (prims : Primitives) (ent : Entropy)
    (st st' : NifState) (msg : List Nat) (sid : String) (keys : List Bin)
    (wire : Bin) (kid : String) (allowed : List Bin)
    (hs : lookupA st.senderKeys sid = none)
    (hr : lookupA st'.recipientKeys kid = none) :
    (Nif.encrypt prims ent st msg sid keys).result =
      .error (.term ("Sender " ++ sid ++ " not found")) ∧
    (Nif.decrypt prims st' wire kid allowed).result =
      .error (.term ("Recipient " ++ kid ++ " not found")) := by
  constructor
  · simp only [Nif.encrypt, hs]
  · simp only [Nif.decrypt, hr]

/-- Witness for C4 on the empty registries. -/
theorem c4_unknown_sender_recipient_rejected_witness :
    lookupA stEmpty.senderKeys "bob" = none ∧
    lookupA stEmpty.recipientKeys "alice" = none ∧
    (Nif.encrypt toyPrims exEnt stEmpty [1, 2] "bob" []).result =
      .error (.term ("Sender " ++ "bob" ++ " not found")) ∧
    (Nif.decrypt toyPrims stEmpty (Bin.raw []) "alice" []).result =
      .error (.term ("Recipient " ++ "alice" ++ " not found")) :=
  ⟨rfl, rfl,
    c4_unknown_sender_recipient_rejected toyPrims exEnt stEmpty stEmpty [1, 2] "bob" []
      (Bin.raw []) "alice" [] rfl rfl⟩

/-- C7: `encrypt` and `decrypt` leave both registries unchanged on every
path, success or failure — they only read the maps (`lib.rs` lines 83-86
and 120-123 perform `get` only; no insertion occurs). -/
theorem c7_seal_open_leave_registries_unchanged (prims : Primitives) (ent : Entropy)
    (st st' : NifState) (msg : List Nat) (sid : String) (keys : List Bin)
    (wire : Bin) (kid : String) (allowed : List Bin) :
    (Nif.encrypt prims ent st msg sid keys).state = st ∧
    (Nif.decrypt prims st' wire kid allowed).state = st' := by
  constructor
  · unfold Nif.encrypt
    repeat' split
    all_goals rfl
  · unfold Nif.decrypt
    repeat' split
    all_goals rfl

/-- C9: a successful `gen_recipient_keypair` / `gen_sender_keypair` call
returns, under the ok atom, exactly the identifier passed in paired with
the CBOR serialization of the freshly generated public key (the public
projection only — the stored private half never appears in the result). -/
theorem c9_gen_returns_id_and_public_key (prims : Primitives) (st st2 : NifState)
    (kid sid : String) (seed seed2 : Nat) :
    (Nif.gen_recipient_keypair prims st kid seed).1 =
      .ok (kid, Bin.recipientPub (TholosPq.gen_recipient_keypair prims kid seed).1) ∧
    (Nif.gen_sender_keypair prims st2 sid seed2).1 =
      .ok (sid, Bin.senderPub (TholosPq.sender_pub (TholosPq.gen_sender_keypair prims sid seed2))) :=
  ⟨rfl, rfl⟩

/-- C10: if any recipient public-key binary fails CBOR deserialization, the
whole seal fails with the deserialization error raised at `lib.rs`
lines 93-98 (`collect::<Result<...>>` is all-or-nothing), and no envelope
is produced for the binaries that did deserialize. -/
theorem c10_bad_recipient_binary_fails_whole_seal (prims : Primitives) (ent : Entropy)
    (st : NifState) (msg : List Nat) (sid : String) (keys : List Bin)
    (sender : SenderKeypair)
    (hS : lookupA st.senderKeys sid = some sender)
    (hbad : ∃ b ∈ keys, Nif.cborDecodeRecipientPub b = .error .invalidEncoding) :
    (Nif.encrypt prims ent st msg sid keys).result =
      .error (.term ("Failed to deserialize recipients: " ++
        CborError.debugStr .invalidEncoding)) := by
  have hcol := collectRecipients_error_of_bad keys hbad
  simp only [Nif.encrypt, hS, hcol]

/-- A state with only the sender `"bob"` registered. -/
def stBob : NifState := { recipientKeys := [], senderKeys := [("bob", oldSenderPair)] }

/-- Witness for C10: one undecodable binary among the recipient keys. -/
theorem c10_bad_recipient_binary_fails_whole_seal_witness :
    lookupA stBob.senderKeys "bob" = some oldSenderPair ∧
    (∃ b ∈ [Bin.raw [0]], Nif.cborDecodeRecipientPub b = .error .invalidEncoding) ∧
    (Nif.encrypt toyPrims exEnt stBob [1] "bob" [Bin.raw [0]]).result =
      .error (.term ("Failed to deserialize recipients: " ++
        CborError.debugStr .invalidEncoding)) :=
  ⟨by decide, by decide,
    c10_bad_recipient_binary_fails_whole_seal toyPrims exEnt stBob [1] "bob" [Bin.raw [0]]
      oldSenderPair (by decide) (by decide)⟩

/-- C2: whenever the Open protocol fails signature verification, neither
the decapsulation step nor the symmetric decryption step is performed:
they never appear in the run's step trace (spec section 4.3 step 5 —
verification completes before any decapsulation or decryption is
attempted). -/
theorem c2_sig_failure_blocks_decap_and_decrypt (prims : Primitives) (wire : Bin)
    (kid : String) (sk : Nat) (allowed : List (String × Nat)) :
    (TholosPq.openRun prims wire kid sk allowed).1 = .error .signatureInvalid →
      TholosPq.OpenStep.decapsulate ∉ (TholosPq.openRun prims wire kid sk allowed).2 ∧
      TholosPq.OpenStep.aeadDecrypt ∉ (TholosPq.openRun prims wire kid sk allowed).2 := by
  unfold TholosPq.openRun
  rcases hw : TholosPq.decodeEnvelope wire with e | env <;> simp only [hw]
  · intro h
    exact ⟨by decide, by decide⟩
  rcases hl : TholosPq.locateEntry kid env.recipients with - | entry <;> simp only [hl]
  · intro h
    exact ⟨by decide, by decide⟩
  rcases hf : TholosPq.findAllowed env.sender_id allowed with - | p <;> simp only [hf]
  · intro h
    exact ⟨by decide, by decide⟩
  cases hv : prims.verify p.2 (TholosPq.envelopeDigest env) env.signature <;> simp [hv]
  rcases hd : prims.kemDecap sk entry.encapsulated_key with - | ck <;> simp only [hd]
  · intro h
    exact absurd h (by decide)
  rcases ha : prims.aeadDecrypt ck env.nonce env.ciphertext env.tag with - | pt <;> simp only [ha]
  · intro h
    exact absurd h (by decide)
  · intro h
    exact absurd h (by simp)

/-- An envelope whose signature is not valid under any key of the toy
primitives (the empty list is never a toy signature). -/
def badEnvelope : Envelope :=
  { sender_id := "bob", recipients := [{ recipient_id := "alice", encapsulated_key := 0 }],
    nonce := 0, ciphertext := [1], tag := 0, signature := [] }

/-- Witness for C2 at a concrete forged envelope. -/
theorem c2_sig_failure_blocks_decap_and_decrypt_witness :
    (TholosPq.openRun toyPrims (Bin.envelope badEnvelope) "alice" 0 [("bob", 7)]).1 =
      .error .signatureInvalid ∧
    TholosPq.OpenStep.decapsulate ∉
      (TholosPq.openRun toyPrims (Bin.envelope badEnvelope) "alice" 0 [("bob", 7)]).2 ∧
    TholosPq.OpenStep.aeadDecrypt ∉
      (TholosPq.openRun toyPrims (Bin.envelope badEnvelope) "alice" 0 [("bob", 7)]).2 :=
  ⟨by decide,
    c2_sig_failure_blocks_decap_and_decrypt toyPrims (Bin.envelope badEnvelope) "alice" 0
      [("bob", 7)] (by decide)⟩

/-- Index of the first occurrence of a step in an event trace (the trace's
length when the step does not occur). -/
def stepIndex (s : NifStep) : List NifStep → Nat
  | [] => 0
  | t :: rest => if t = s then 0 else stepIndex s rest + 1

/-- The ordering property asserted by C8: the registry unlock event
strictly precedes the cryptographic call in the run's event trace
(whenever the cryptographic call happens at all). -/
def ReleasedBeforeCrypto (evs : List NifStep) (unlockStep cryptoStep : NifStep) : Prop :=
  cryptoStep ∈ evs → stepIndex unlockStep evs < stepIndex cryptoStep evs

/-- A state in which recipient `"alice"` and sender `"bob"` are registered
with registry-generated keypairs. -/
def stBoth : NifState :=
  { recipientKeys := [("alice", TholosPq.gen_recipient_keypair toyPrims "alice" 1)],
    senderKeys := [("bob", TholosPq.gen_sender_keypair toyPrims "bob" 2)] }

/-- C8 counterexample: on a concrete successful seal (and a concrete open
reaching the cryptographic call), the cryptographic call occurs while the
registry lock is still held — the unlock event does not precede it.  In
`lib.rs` the `MutexGuard`s (`sender_keys` line 83, `recipient_keys`
line 120) stay alive until the function returns, and the key material used
at lines 101 and 139 is borrowed from them. -/
theorem c8_counterexample :
    NifStep.tholosEncrypt ∈ (Nif.encrypt toyPrims exEnt stBoth [7, 8] "bob"
      [Bin.recipientPub (TholosPq.gen_recipient_keypair toyPrims "alice" 1).1]).events ∧
    ¬ ReleasedBeforeCrypto (Nif.encrypt toyPrims exEnt stBoth [7, 8] "bob"
      [Bin.recipientPub (TholosPq.gen_recipient_keypair toyPrims "alice" 1).1]).events
      .unlockSender .tholosEncrypt ∧
    NifStep.tholosDecrypt ∈ (Nif.decrypt toyPrims stBoth (Bin.raw []) "alice" []).events ∧
    ¬ ReleasedBeforeCrypto (Nif.decrypt toyPrims stBoth (Bin.raw []) "alice" []).events
      .unlockRecipient .tholosDecrypt := by
  unfold ReleasedBeforeCrypto
  decide

lemma encrypt_events_cases (prims : Primitives) (ent : Entropy) (st : NifState)
    (msg : List Nat) (sid : String) (keys : List Bin) :
    (Nif.encrypt prims ent st msg sid keys).events = [.lockSender, .unlockSender] ∨
    (Nif.encrypt prims ent st msg sid keys).events =
      [.lockSender, .tholosEncrypt, .unlockSender] := by
  unfold Nif.encrypt
  repeat' split
  all_goals simp

lemma decrypt_events_cases (prims : Primitives) (st : NifState) (wire : Bin)
    (kid : String) (allowed : List Bin) :
    (Nif.decrypt prims st wire kid allowed).events = [.lockRecipient, .unlockRecipient] ∨
    (Nif.decrypt prims st wire kid allowed).events =
      [.lockRecipient, .tholosDecrypt, .unlockRecipient] := by
  unfold Nif.decrypt
  repeat' split
  all_goals simp

/-- C8 (amended): in both `encrypt` and `decrypt` the registry lock guard
is held for the whole call — the unlock event is the last event of every
run, and the cryptographic call, when reached, occurs strictly before it
(i.e. under the lock), because the guard is dropped only at function exit
and the private key material is borrowed from the guarded map rather than
copied out. -/
theorem c8_lock_held_across_crypto (prims : Primitives) (ent : Entropy)
    (st st' : NifState) (msg : List Nat) (sid kid : String) (keys allowed : List Bin)
    (wire : Bin) :
    ((Nif.encrypt prims ent st msg sid keys).events.getLast? = some .unlockSender ∧
      (NifStep.tholosEncrypt ∈ (Nif.encrypt prims ent st msg sid keys).events →
        stepIndex .tholosEncrypt (Nif.encrypt prims ent st msg sid keys).events <
          stepIndex .unlockSender (Nif.encrypt prims ent st msg sid keys).events)) ∧
    ((Nif.decrypt prims st' wire kid allowed).events.getLast? = some .unlockRecipient ∧
      (NifStep.tholosDecrypt ∈ (Nif.decrypt prims st' wire kid allowed).events →
        stepIndex .tholosDecrypt (Nif.decrypt prims st' wire kid allowed).events <
          stepIndex .unlockRecipient (Nif.decrypt prims st' wire kid allowed).events)) := by
  rcases encrypt_events_cases prims ent st msg sid keys with he | he <;>
    rcases decrypt_events_cases prims st' wire kid allowed with hd | hd <;>
      rw [he, hd] <;> exact ⟨⟨by decide, by decide⟩, ⟨by decide, by decide⟩⟩

/-- Witness for the amended C8 at concrete successful runs. -/
theorem c8_lock_held_across_crypto_witness :
    (Nif.encrypt toyPrims exEnt stBoth [7, 8] "bob"
        [Bin.recipientPub (TholosPq.gen_recipient_keypair toyPrims "alice" 1).1]).events.getLast? =
      some NifStep.unlockSender ∧
    stepIndex .tholosEncrypt (Nif.encrypt toyPrims exEnt stBoth [7, 8] "bob"
        [Bin.recipientPub (TholosPq.gen_recipient_keypair toyPrims "alice" 1).1]).events <
      stepIndex .unlockSender (Nif.encrypt toyPrims exEnt stBoth [7, 8] "bob"
        [Bin.recipientPub (TholosPq.gen_recipient_keypair toyPrims "alice" 1).1]).events ∧
    (Nif.decrypt toyPrims stBoth (Bin.raw []) "alice" []).events.getLast? =
      some NifStep.unlockRecipient ∧
    stepIndex .tholosDecrypt (Nif.decrypt toyPrims stBoth (Bin.raw []) "alice" []).events <
      stepIndex .unlockRecipient (Nif.decrypt toyPrims stBoth (Bin.raw []) "alice" []).events :=
  ⟨(c8_lock_held_across_crypto toyPrims exEnt stBoth stBoth [7, 8] "bob" "alice"
      [Bin.recipientPub (TholosPq.gen_recipient_keypair toyPrims "alice" 1).1] []
      (Bin.raw [])).1.1,
    (c8_lock_held_across_crypto toyPrims exEnt stBoth stBoth [7, 8] "bob" "alice"
      [Bin.recipientPub (TholosPq.gen_recipient_keypair toyPrims "alice" 1).1] []
      (Bin.raw [])).1.2 (by decide),
    (c8_lock_held_across_crypto toyPrims exEnt stBoth stBoth [7, 8] "bob" "alice"
      [Bin.recipientPub (TholosPq.gen_recipient_keypair toyPrims "alice" 1).1] []
      (Bin.raw [])).2.1,
    (c8_lock_held_across_crypto toyPrims exEnt stBoth stBoth [7, 8] "bob" "alice"
      [Bin.recipientPub (TholosPq.gen_recipient_keypair toyPrims "alice" 1).1] []
      (Bin.raw [])).2.2 (by decide)⟩

/-- The spec's closed error taxonomy (spec section 7), as bare tags. -/
def specErrorTaxonomy : List String :=
  ["DuplicateIdentifier", "UnknownSender", "UnknownRecipient", "RecipientNotAddressed",
   "UntrustedSender", "SignatureInvalid", "EncapsulationFailed", "DecapsulationFailed",
   "PayloadAuthenticationFailed", "SerializationFailed"]

/-- C6 counterexample: a concrete failing seal surfaces a raw formatted
string (`Sender mallory not found`), not a tagged kind of the closed
taxonomy — `lib.rs` raises `Error::Term` with ad hoc `format!` text
(lines 84-86) rather than tagged error kinds. -/
theorem c6_counterexample :
    (Nif.encrypt toyPrims exEnt stEmpty [1] "mallory" []).result =
      .error (.term "Sender mallory not found") ∧
    "Sender mallory not found" ∉ specErrorTaxonomy := by
  constructor
  · decide
  · decide

/-- C6 (amended): every failure of seal/open is surfaced to the immediate
caller as an `Error::Term` string with a failure-site-specific prefix
(`Sender … not found`, `Failed to deserialize recipients: …`,
`Encryption failed: …`, `Recipient … not found`,
`Failed to deserialize sender pub key: …`, `Decryption failed: …`); the
wrapped debug text preserves the inner error's kind, and in particular a
signature-verification failure renders differently from a payload
authentication failure — but these are ad hoc strings, not a closed set of
tagged error kinds. -/
theorem c6_failures_are_prefixed_string_terms (prims : Primitives) (ent : Entropy)
    (st st' : NifState) (msg : List Nat) (sid kid : String) (keys allowed : List Bin)
    (wire : Bin) :
    (∀ e, (Nif.encrypt prims ent st msg sid keys).result = .error e →
        e = .term ("Sender " ++ sid ++ " not found") ∨
        (∃ ce : CborError, e = .term ("Failed to deserialize recipients: " ++ ce.debugStr)) ∨
        (∃ te : TholosError, e = .term ("Encryption failed: " ++ te.debugStr))) ∧
    (∀ e, (Nif.decrypt prims st' wire kid allowed).result = .error e →
        e = .term ("Recipient " ++ kid ++ " not found") ∨
        (∃ ce : CborError, e = .term ("Failed to deserialize sender pub key: " ++ ce.debugStr)) ∨
        (∃ te : TholosError, e = .term ("Decryption failed: " ++ te.debugStr))) ∧
    TholosError.debugStr .signatureInvalid ≠ TholosError.debugStr .payloadAuthenticationFailed := by
  refine ⟨?_, ?_, by decide⟩
  · intro e
    unfold Nif.encrypt
    rcases hs : lookupA st.senderKeys sid with - | sender <;> simp only [hs]
    · intro he
      exact .inl (by simpa using he.symm)
    rcases hc : Nif.collectRecipients keys with ce | rs <;> simp only [hc]
    · intro he
      exact .inr (.inl ⟨ce, by simpa using he.symm⟩)
    rcases ht : TholosPq.encrypt prims ent msg sender rs with te | w <;> simp only [ht]
    · intro he
      exact .inr (.inr ⟨te, by simpa using he.symm⟩)
    · intro he
      exact absurd he (by simp)
  · intro e
    unfold Nif.decrypt
    rcases hs : lookupA st'.recipientKeys kid with - | kp <;> simp only [hs]
    · intro he
      exact .inl (by simpa using he.symm)
    rcases hc : Nif.collectAllowed allowed with ce | al <;> simp only [hc]
    · intro he
      exact .inr (.inl ⟨ce, by simpa using he.symm⟩)
    rcases ht : TholosPq.decrypt prims wire kid kp.2.sk_kyber al with te | pt <;> simp only [ht]
    · intro he
      exact .inr (.inr ⟨te, by simpa using he.symm⟩)
    · intro he
      exact absurd he (by simp)

/-- Witness for the amended C6 at a concrete failing open. -/
theorem c6_failures_are_prefixed_string_terms_witness :
    (Nif.decrypt toyPrims stEmpty (Bin.raw []) "zed" []).result =
      .error (.term "Recipient zed not found") ∧
    ((NifError.term "Recipient zed not found") = .term ("Recipient " ++ "zed" ++ " not found") ∨
      (∃ ce : CborError,
        (NifError.term "Recipient zed not found") =
          .term ("Failed to deserialize sender pub key: " ++ ce.debugStr)) ∨
      (∃ te : TholosError,
        (NifError.term "Recipient zed not found") =
          .term ("Decryption failed: " ++ te.debugStr))) :=
  ⟨by decide,
    (c6_failures_are_prefixed_string_terms toyPrims exEnt stEmpty stEmpty [] "x" "zed" [] []
      (Bin.raw [])).2.1 (.term "Recipient zed not found") (by decide)⟩

lemma tholos_encrypt_keygen (prims : Primitives) (hkem : KemCorrect prims)
    (ent : Entropy) (P : List Nat) (S : String) (sseed : Nat)
    (R : List String) (keyseed : String → Nat) :
    ∃ entries : List RecipientEntry,
      entries.map (·.recipient_id) = R ∧
      (∀ e ∈ entries,
        prims.kemDecap (prims.kemKeygen (keyseed e.recipient_id)).2 e.encapsulated_key =
          some ent.contentKey) ∧
      TholosPq.encrypt prims ent P (TholosPq.gen_sender_keypair prims S sseed)
          (R.map fun i => (TholosPq.gen_recipient_keypair prims i (keyseed i)).1) =
        .ok (Bin.envelope
          { sender_id := S, recipients := entries, nonce := ent.nonce,
            ciphertext := (prims.aeadEncrypt ent.contentKey ent.nonce P).1,
            tag := (prims.aeadEncrypt ent.contentKey ent.nonce P).2,
            signature := prims.sign (prims.sigKeygen sseed).2
              (TholosPq.canonicalDigest S R ent.nonce
                (prims.aeadEncrypt ent.contentKey ent.nonce P).1
                (prims.aeadEncrypt ent.contentKey ent.nonce P).2) }) := by
  obtain ⟨entries, hene, hmap, hdec⟩ :=
    encapAll_of_keygen prims hkem ent.contentKey keyseed R ent.encapRand
  refine ⟨entries, hmap, hdec, ?_⟩
  simp only [TholosPq.encrypt, TholosPq.gen_sender_keypair, hene, hmap]

/-- C1: sealing a plaintext from a registered sender for a non-empty set of
recipients whose keypairs were generated by the registry, then opening the
wire as any recipient `r` of that set with an allow-list containing exactly
the sender's public identity, returns exactly the plaintext — assuming the
external primitive contracts of spec section 6. -/
theorem c1_seal_open_round_trip (prims : Primitives)
    (hkem : KemCorrect prims) (hsig : SigCorrect prims) (haead : AeadCorrect prims)
    (ent : Entropy) (st : NifState) (P : List Nat) (S : String) (sseed : Nat)
    (R : List String) (keyseed : String → Nat) (r : String)
    (hS : lookupA st.senderKeys S = some (TholosPq.gen_sender_keypair prims S sseed))
    (hr : r ∈ R)
    (hreg : lookupA st.recipientKeys r =
      some (TholosPq.gen_recipient_keypair prims r (keyseed r))) :
    ∃ w, (Nif.encrypt prims ent st P S
        (R.map fun i =>
          Bin.recipientPub (TholosPq.gen_recipient_keypair prims i (keyseed i)).1)).result =
      .ok w ∧
      (Nif.decrypt prims st w r
        [Bin.senderPub (TholosPq.sender_pub (TholosPq.gen_sender_keypair prims S sseed))]).result =
      .ok P := by
  obtain ⟨entries, hmap, hdec, henc⟩ := tholos_encrypt_keygen prims hkem ent P S sseed R keyseed
  refine ⟨Bin.envelope
    { sender_id := S, recipients := entries, nonce := ent.nonce,
      ciphertext := (prims.aeadEncrypt ent.contentKey ent.nonce P).1,
      tag := (prims.aeadEncrypt ent.contentKey ent.nonce P).2,
      signature := prims.sign (prims.sigKeygen sseed).2
        (TholosPq.canonicalDigest S R ent.nonce
          (prims.aeadEncrypt ent.contentKey ent.nonce P).1
          (prims.aeadEncrypt ent.contentKey ent.nonce P).2) }, ?_, ?_⟩
  · have hmapmap : R.map (fun i =>
        Bin.recipientPub (TholosPq.gen_recipient_keypair prims i (keyseed i)).1) =
        (R.map fun i => (TholosPq.gen_recipient_keypair prims i (keyseed i)).1).map
          Bin.recipientPub := by
      rw [List.map_map]
      rfl
    simp only [Nif.encrypt, hS, hmapmap, collectRecipients_map_encode, henc]
  · obtain ⟨entry, hloc, hid, hmem⟩ := locateEntry_eq_some r entries (by rw [hmap]; exact hr)
    have hdecr := hdec entry hmem
    rw [hid] at hdecr
    have hver := hsig sseed (TholosPq.canonicalDigest S R ent.nonce
      (prims.aeadEncrypt ent.contentKey ent.nonce P).1
      (prims.aeadEncrypt ent.contentKey ent.nonce P).2)
    have haeadP := haead ent.contentKey ent.nonce P
    simp [Nif.decrypt, hreg, TholosPq.gen_recipient_keypair, Nif.collectAllowed,
      Nif.cborDecodeSenderPub, TholosPq.sender_pub, TholosPq.gen_sender_keypair,
      TholosPq.decrypt, TholosPq.openRun, TholosPq.decodeEnvelope, TholosPq.envelopeDigest,
      TholosPq.findAllowed, hmap, hloc, hver, hdecr, haeadP]

/-- Witness for C1: the concrete scenario of spec section 8 — recipient
`"alice"` and sender `"bob"` registered, a 2-byte message sealed for
`["alice"]` and opened as `"alice"` with allow-list containing exactly the
public identity of `"bob"`. -/
theorem c1_seal_open_round_trip_witness :
    lookupA stBoth.senderKeys "bob" = some (TholosPq.gen_sender_keypair toyPrims "bob" 2) ∧
    "alice" ∈ ["alice"] ∧
    lookupA stBoth.recipientKeys "alice" =
      some (TholosPq.gen_recipient_keypair toyPrims "alice" 1) ∧
    ∃ w, (Nif.encrypt toyPrims exEnt stBoth [104, 105] "bob"
        (["alice"].map fun i =>
          Bin.recipientPub (TholosPq.gen_recipient_keypair toyPrims i 1).1)).result = .ok w ∧
      (Nif.decrypt toyPrims stBoth w "alice"
        [Bin.senderPub (TholosPq.sender_pub
          (TholosPq.gen_sender_keypair toyPrims "bob" 2))]).result = .ok [104, 105] :=
  ⟨by decide, by decide, by decide,
    c1_seal_open_round_trip toyPrims toyPrims_kem toyPrims_sig toyPrims_aead exEnt stBoth
      [104, 105] "bob" 2 ["alice"] (fun _ => 1) "alice" (by decide) (by decide) (by decide)⟩

/-- C5: opening a validly sealed envelope as an addressed, registered
recipient with an *empty* allow-list fails with the `UntrustedSender`
protocol error (surfaced by the NIF as the `Decryption failed:
UntrustedSender` term), even though the envelope's signature verifies
under the sender's public key; no plaintext is returned. -/
theorem c5_empty_allowlist_fails_untrusted_sender (prims : Primitives)
    (hkem : KemCorrect prims) (hsig : SigCorrect prims)
    (ent : Entropy) (st : NifState) (P : List Nat) (S : String) (sseed : Nat)
    (R : List String) (keyseed : String → Nat) (r : String)
    (hS : lookupA st.senderKeys S = some (TholosPq.gen_sender_keypair prims S sseed))
    (hr : r ∈ R)
    (hreg : lookupA st.recipientKeys r =
      some (TholosPq.gen_recipient_keypair prims r (keyseed r))) :
    ∃ w, (Nif.encrypt prims ent st P S
        (R.map fun i =>
          Bin.recipientPub (TholosPq.gen_recipient_keypair prims i (keyseed i)).1)).result =
      .ok w ∧
      (∃ env, w = Bin.envelope env ∧
        prims.verify (TholosPq.gen_sender_keypair prims S sseed).pk_dilithium
          (TholosPq.envelopeDigest env) env.signature = true) ∧
      (Nif.decrypt prims st w r []).result =
        .error (.term ("Decryption failed: " ++ TholosError.debugStr .untrustedSender)) := by
  obtain ⟨entries, hmap, hdec, henc⟩ := tholos_encrypt_keygen prims hkem ent P S sseed R keyseed
  obtain ⟨entry, hloc, hid, hmem⟩ := locateEntry_eq_some r entries (by rw [hmap]; exact hr)
  have hver := hsig sseed (TholosPq.canonicalDigest S R ent.nonce
    (prims.aeadEncrypt ent.contentKey ent.nonce P).1
    (prims.aeadEncrypt ent.contentKey ent.nonce P).2)
  refine ⟨Bin.envelope
    { sender_id := S, recipients := entries, nonce := ent.nonce,
      ciphertext := (prims.aeadEncrypt ent.contentKey ent.nonce P).1,
      tag := (prims.aeadEncrypt ent.contentKey ent.nonce P).2,
      signature := prims.sign (prims.sigKeygen sseed).2
        (TholosPq.canonicalDigest S R ent.nonce
          (prims.aeadEncrypt ent.contentKey ent.nonce P).1
          (prims.aeadEncrypt ent.contentKey ent.nonce P).2) }, ?_, ⟨_, rfl, ?_⟩, ?_⟩
  · have hmapmap : R.map (fun i =>
        Bin.recipientPub (TholosPq.gen_recipient_keypair prims i (keyseed i)).1) =
        (R.map fun i => (TholosPq.gen_recipient_keypair prims i (keyseed i)).1).map
          Bin.recipientPub := by
      rw [List.map_map]
      rfl
    simp only [Nif.encrypt, hS, hmapmap, collectRecipients_map_encode, henc]
  · simpa [TholosPq.envelopeDigest, TholosPq.gen_sender_keypair, hmap] using hver
  · simp [Nif.decrypt, hreg, Nif.collectAllowed, TholosPq.decrypt, TholosPq.openRun,
      TholosPq.decodeEnvelope, TholosPq.findAllowed, hloc]

/-- Witness for C5: the spec section 8 scenario with an empty allow-list. -/
theorem c5_empty_allowlist_fails_untrusted_sender_witness :
    lookupA stBoth.senderKeys "bob" = some (TholosPq.gen_sender_keypair toyPrims "bob" 2) ∧
    "alice" ∈ ["alice"] ∧
    lookupA stBoth.recipientKeys "alice" =
      some (TholosPq.gen_recipient_keypair toyPrims "alice" 1) ∧
    ∃ w, (Nif.encrypt toyPrims exEnt stBoth [104, 105] "bob"
        (["alice"].map fun i =>
          Bin.recipientPub (TholosPq.gen_recipient_keypair toyPrims i 1).1)).result = .ok w ∧
      (∃ env, w = Bin.envelope env ∧
        toyPrims.verify (TholosPq.gen_sender_keypair toyPrims "bob" 2).pk_dilithium
          (TholosPq.envelopeDigest env) env.signature = true) ∧
      (Nif.decrypt toyPrims stBoth w "alice" []).result =
        .error (.term ("Decryption failed: " ++ TholosError.debugStr .untrustedSender)) :=
  ⟨by decide, by decide, by decide,
    c5_empty_allowlist_fails_untrusted_sender toyPrims toyPrims_kem toyPrims_sig exEnt stBoth
      [104, 105] "bob" 2 ["alice"] (fun _ => 1) "alice" (by decide) (by decide) (by decide)⟩
